import Mathlib

/-
  Verification of the MD5 message-digest engine of the `learning_crypto`
  repository (`src/hashing/md5.rs`, `src/hashing/mod.rs`).

  The Rust code is shallowly embedded over `Nat`: `u32` values are natural
  numbers kept below `2 ^ 32` by explicit `% 2 ^ 32` reductions (Rust's
  `wrapping_add` / `rotate_left` semantics), `u8` values are naturals below
  `256`, and byte strings are `List Nat`.  Fallible operations return
  `Except`.  Loops of the source are embedded as folds or fuel-indexed
  recursions so that every definition reduces inside the kernel.
-/

namespace MD5

/-- `u32::wrapping_add`: addition modulo `2 ^ 32`. -/
def wrapping_add (x y : Nat) : Nat := (x + y) % 2 ^ 32

/-- `u32::rotate_left` for a 32-bit value `x` and shift `s` with
`0 < s < 32` (the only shifts the algorithm uses). -/
def rotate_left (x s : Nat) : Nat := (x <<< s) % 2 ^ 32 ||| x >>> (32 - s)

/-- Rust `!z` on `u32`: bitwise complement within 32 bits. -/
def not32 (z : Nat) : Nat := z ^^^ 0xFFFFFFFF

/-- Auxiliary function `f` of `md5.rs`: `x & y | !x & z`. -/
def f (x y z : Nat) : Nat := x &&& y ||| not32 x &&& z

/-- Auxiliary function `g` of `md5.rs`: `x & z | y & !z`. -/
def g (x y z : Nat) : Nat := x &&& z ||| y &&& not32 z

/-- Auxiliary function `h` of `md5.rs`: `x ^ y ^ z`. -/
def h (x y z : Nat) : Nat := x ^^^ y ^^^ z

/-- Auxiliary function `i` of `md5.rs`: `y ^ (x | !z)`. -/
def i (x y z : Nat) : Nat := y ^^^ (x ||| not32 z)

/-- `build_value_table` of `md5.rs`.  The Rust function computes, after an
unused leading `0`, the 64 values `(2^32 * |sin i|) as u32` for `i` in
`1..=64` in double-precision floating point.  Floating point does not
reduce in the kernel, so the table is embedded as the 65 values that
computation yields (they are validated indirectly: the digest test vectors
of the repository are re-proved below over this very table). -/
def build_value_table : List Nat :=
  [0x00000000,
   0xd76aa478, 0xe8c7b756, 0x242070db, 0xc1bdceee,
   0xf57c0faf, 0x4787c62a, 0xa8304613, 0xfd469501,
   0x698098d8, 0x8b44f7af, 0xffff5bb1, 0x895cd7be,
   0x6b901122, 0xfd987193, 0xa679438e, 0x49b40821,
   0xf61e2562, 0xc040b340, 0x265e5a51, 0xe9b6c7aa,
   0xd62f105d, 0x02441453, 0xd8a1e681, 0xe7d3fbc8,
   0x21e1cde6, 0xc33707d6, 0xf4d50d87, 0x455a14ed,
   0xa9e3e905, 0xfcefa3f8, 0x676f02d9, 0x8d2a4c8a,
   0xfffa3942, 0x8771f681, 0x6d9d6122, 0xfde5380c,
   0xa4beea44, 0x4bdecfa9, 0xf6bb4b60, 0xbebfbc70,
   0x289b7ec6, 0xeaa127fa, 0xd4ef3085, 0x04881d05,
   0xd9d4d039, 0xe6db99e5, 0x1fa27cf8, 0xc4ac5665,
   0xf4292244, 0x432aff97, 0xab9423a7, 0xfc93a039,
   0x655b59c3, 0x8f0ccc92, 0xffeff47d, 0x85845dd1,
   0x6fa87e4f, 0xfe2ce6e0, 0xa3014314, 0x4e0811a1,
   0xf7537e82, 0xbd3af235, 0x2ad7d2bb, 0xeb86d391]

/-- `u64_to_array_u8` of `md5.rs`: for `i` in `0..8`, byte `i` is
`(size >> (i * 8)) as u8`, i.e. the little-endian bytes of `size`. -/
def u64_to_array_u8 (size : Nat) : List Nat :=
  (List.range 8).map (fun j => size >>> (j * 8) % 256)

/-- The `while` loop of `pad_input`: push `0` bytes while
`(bytes.len() * 8) % 512 != 448`.  The loop runs at most 63 times, so a
fuel of 64 is always enough; `pad_zeros_closed` below derives the closed
form of the loop, showing the fuel never runs out. -/
def pad_zeros : Nat → List Nat → List Nat
  | 0, l => l
  | fuel + 1, l => if l.length * 8 % 512 = 448 then l else pad_zeros fuel (l ++ [0])

/-- `pad_input` of `md5.rs`: append the byte `0b10000000`, pad with zero
bytes until the bit length is `448 (mod 512)`, then append the original
bit length `8 * text.len()` as a little-endian `u64` (taken `mod 2 ^ 64`,
Rust's wrapping `u64` arithmetic). -/
def pad_input (text : List Nat) : List Nat :=
  let bytes := text ++ [0b10000000]
  let bytes := pad_zeros 64 bytes
  bytes ++ u64_to_array_u8 (8 * text.length % 2 ^ 64)

/-- `u32::from_ne_bytes` on the little-endian targets the repository's
tests assume: bytes `b0, b1, b2, b3` (values of type `u8`, hence the
`% 256`) assemble into `b0 + 2^8 b1 + 2^16 b2 + 2^24 b3`. -/
def u32_from_ne_bytes (b0 b1 b2 b3 : Nat) : Nat :=
  b0 % 256 + b1 % 256 * 2 ^ 8 + b2 % 256 * 2 ^ 16 + b3 % 256 * 2 ^ 24

/-- `bytes_to_u32_chunks` of `md5.rs`: group the byte list four at a time
and reassemble each group with `u32::from_ne_bytes`.  (On a trailing group
of fewer than four bytes the Rust code would panic on `chunk[3]`; `hash`
only ever passes 64-byte blocks, where no such group exists, and the
embedding returns no word for it.) -/
def bytes_to_u32_chunks : List Nat → List Nat
  | b0 :: b1 :: b2 :: b3 :: rest =>
      u32_from_ne_bytes b0 b1 b2 b3 :: bytes_to_u32_chunks rest
  | _ => []

/-- The `round_op!` macro of `md5.rs`: the value assigned to its first
register, `b + ((a + func(b, c, d) + chunk + table_val) <<< s)` in
wrapping `u32` arithmetic. -/
def round_op (a b c d : Nat) (func : Nat → Nat → Nat → Nat)
    (chunk table_val s : Nat) : Nat :=
  wrapping_add b
    (rotate_left
      (wrapping_add (wrapping_add (wrapping_add a (func b c d)) chunk) table_val) s)

/-- `round_1` of `md5.rs`: a `for` loop over `i` in `0..4`, each iteration
performing four `round_op!` steps with `j = i * 4`. -/
def round_1 (a b c d : Nat) (chunks table : List Nat) : Nat × Nat × Nat × Nat :=
  (List.range 4).foldl
    (fun st it =>
      let (a, b, c, d) := st
      let j := it * 4
      let a := round_op a b c d f (chunks.getD j 0) (table.getD (j + 1) 0) 7
      let d := round_op d a b c f (chunks.getD (j + 1) 0) (table.getD (j + 2) 0) 12
      let c := round_op c d a b f (chunks.getD (j + 2) 0) (table.getD (j + 3) 0) 17
      let b := round_op b c d a f (chunks.getD (j + 3) 0) (table.getD (j + 4) 0) 22
      (a, b, c, d))
    (a, b, c, d)

/-- `round_2` of `md5.rs`, unrolled exactly as in the source. -/
def round_2 (a b c d : Nat) (chunks table : List Nat) : Nat × Nat × Nat × Nat :=
  let a := round_op a b c d g (chunks.getD 1 0) (table.getD 17 0) 5
  let d := round_op d a b c g (chunks.getD 6 0) (table.getD 18 0) 9
  let c := round_op c d a b g (chunks.getD 11 0) (table.getD 19 0) 14
  let b := round_op b c d a g (chunks.getD 0 0) (table.getD 20 0) 20
  let a := round_op a b c d g (chunks.getD 5 0) (table.getD 21 0) 5
  let d := round_op d a b c g (chunks.getD 10 0) (table.getD 22 0) 9
  let c := round_op c d a b g (chunks.getD 15 0) (table.getD 23 0) 14
  let b := round_op b c d a g (chunks.getD 4 0) (table.getD 24 0) 20
  let a := round_op a b c d g (chunks.getD 9 0) (table.getD 25 0) 5
  let d := round_op d a b c g (chunks.getD 14 0) (table.getD 26 0) 9
  let c := round_op c d a b g (chunks.getD 3 0) (table.getD 27 0) 14
  let b := round_op b c d a g (chunks.getD 8 0) (table.getD 28 0) 20
  let a := round_op a b c d g (chunks.getD 13 0) (table.getD 29 0) 5
  let d := round_op d a b c g (chunks.getD 2 0) (table.getD 30 0) 9
  let c := round_op c d a b g (chunks.getD 7 0) (table.getD 31 0) 14
  let b := round_op b c d a g (chunks.getD 12 0) (table.getD 32 0) 20
  (a, b, c, d)

/-- `round_3` of `md5.rs`, unrolled exactly as in the source. -/
def round_3 (a b c d : Nat) (chunks table : List Nat) : Nat × Nat × Nat × Nat :=
  let a := round_op a b c d h (chunks.getD 5 0) (table.getD 33 0) 4
  let d := round_op d a b c h (chunks.getD 8 0) (table.getD 34 0) 11
  let c := round_op c d a b h (chunks.getD 11 0) (table.getD 35 0) 16
  let b := round_op b c d a h (chunks.getD 14 0) (table.getD 36 0) 23
  let a := round_op a b c d h (chunks.getD 1 0) (table.getD 37 0) 4
  let d := round_op d a b c h (chunks.getD 4 0) (table.getD 38 0) 11
  let c := round_op c d a b h (chunks.getD 7 0) (table.getD 39 0) 16
  let b := round_op b c d a h (chunks.getD 10 0) (table.getD 40 0) 23
  let a := round_op a b c d h (chunks.getD 13 0) (table.getD 41 0) 4
  let d := round_op d a b c h (chunks.getD 0 0) (table.getD 42 0) 11
  let c := round_op c d a b h (chunks.getD 3 0) (table.getD 43 0) 16
  let b := round_op b c d a h (chunks.getD 6 0) (table.getD 44 0) 23
  let a := round_op a b c d h (chunks.getD 9 0) (table.getD 45 0) 4
  let d := round_op d a b c h (chunks.getD 12 0) (table.getD 46 0) 11
  let c := round_op c d a b h (chunks.getD 15 0) (table.getD 47 0) 16
  let b := round_op b c d a h (chunks.getD 2 0) (table.getD 48 0) 23
  (a, b, c, d)

/-- `round_4` of `md5.rs`, unrolled exactly as in the source. -/
def round_4 (a b c d : Nat) (chunks table : List Nat) : Nat × Nat × Nat × Nat :=
  let a := round_op a b c d i (chunks.getD 0 0) (table.getD 49 0) 6
  let d := round_op d a b c i (chunks.getD 7 0) (table.getD 50 0) 10
  let c := round_op c d a b i (chunks.getD 14 0) (table.getD 51 0) 15
  let b := round_op b c d a i (chunks.getD 5 0) (table.getD 52 0) 21
  let a := round_op a b c d i (chunks.getD 12 0) (table.getD 53 0) 6
  let d := round_op d a b c i (chunks.getD 3 0) (table.getD 54 0) 10
  let c := round_op c d a b i (chunks.getD 10 0) (table.getD 55 0) 15
  let b := round_op b c d a i (chunks.getD 1 0) (table.getD 56 0) 21
  let a := round_op a b c d i (chunks.getD 8 0) (table.getD 57 0) 6
  let d := round_op d a b c i (chunks.getD 15 0) (table.getD 58 0) 10
  let c := round_op c d a b i (chunks.getD 6 0) (table.getD 59 0) 15
  let b := round_op b c d a i (chunks.getD 13 0) (table.getD 60 0) 21
  let a := round_op a b c d i (chunks.getD 4 0) (table.getD 61 0) 6
  let d := round_op d a b c i (chunks.getD 11 0) (table.getD 62 0) 10
  let c := round_op c d a b i (chunks.getD 2 0) (table.getD 63 0) 15
  let b := round_op b c d a i (chunks.getD 9 0) (table.getD 64 0) 21
  (a, b, c, d)

/-- `padded_text.chunks_exact(64)`: the consecutive, non-overlapping
64-byte windows of the list (a trailing window of fewer than 64 bytes is
dropped, as `chunks_exact` drops it).  Fuel-indexed so that it reduces in
the kernel; each step consumes 64 bytes, so `l.length` fuel suffices. -/
def chunks_exact_64_go : Nat → List Nat → List (List Nat)
  | 0, _ => []
  | fuel + 1, l =>
      if l.length < 64 then [] else l.take 64 :: chunks_exact_64_go fuel (l.drop 64)

/-- See `chunks_exact_64_go`. -/
def chunks_exact_64 (l : List Nat) : List (List Nat) :=
  chunks_exact_64_go l.length l

/-- The block loop of `MD5::hash`: starting from the fixed initial
registers, fold every 64-byte block of the padded input through the four
rounds and add the saved registers back in wrapping `u32` arithmetic. -/
def md5_state (text : List Nat) : Nat × Nat × Nat × Nat :=
  let padded_text := pad_input text
  let table := build_value_table
  (chunks_exact_64 padded_text).foldl
    (fun st block =>
      let chunk := bytes_to_u32_chunks block
      let (a, b, c, d) := st
      let (save_a, save_b, save_c, save_d) := (a, b, c, d)
      let (a, b, c, d) := round_1 a b c d chunk table
      let (a, b, c, d) := round_2 a b c d chunk table
      let (a, b, c, d) := round_3 a b c d chunk table
      let (a, b, c, d) := round_4 a b c d chunk table
      (wrapping_add a save_a, wrapping_add b save_b,
       wrapping_add c save_c, wrapping_add d save_d))
    (0x67452301, 0xEFCDAB89, 0x98BADCFE, 0x10325476)

/-- One hexadecimal digit as `format!` renders it: lowercase, i.e. the
character codes of `0`..`9` (48..57) for values below ten and of `a`..`f`
(97..102) for ten to fifteen. -/
def hexChar (n : Nat) : Char :=
  if n < 10 then Char.ofNat (48 + n) else Char.ofNat (87 + n)

/-- `format!` with the `08x` spec on a `u32` value: eight lowercase hex
digits, most significant first. -/
def format_hex8 (x : Nat) : String :=
  String.mk
    [hexChar (x / 2 ^ 28 % 16), hexChar (x / 2 ^ 24 % 16),
     hexChar (x / 2 ^ 20 % 16), hexChar (x / 2 ^ 16 % 16),
     hexChar (x / 2 ^ 12 % 16), hexChar (x / 2 ^ 8 % 16),
     hexChar (x / 2 ^ 4 % 16), hexChar (x % 16)]

/-- `u32::swap_bytes`: reverse the four bytes of a 32-bit value. -/
def swap_bytes (x : Nat) : Nat :=
  x % 256 * 2 ^ 24 + x / 2 ^ 8 % 256 * 2 ^ 16 + x / 2 ^ 16 % 256 * 2 ^ 8 +
    x / 2 ^ 24 % 256

/-- The final expression of `MD5::hash`: `format!` of the marker `0x`
followed by the `08x` rendering of `swap_bytes` of each register, in
register order, collected into one string. -/
def md5_digest (text : List Nat) : String :=
  let st := md5_state text
  "0x" ++ String.join
    ([st.1, st.2.1, st.2.2.1, st.2.2.2].map fun x => format_hex8 (swap_bytes x))

/-- `MD5::hash` (`Hasher::hash` for `MD5`): `anyhow::Result<String>` is
embedded as `Except Unit String`; the body always returns `Ok`. -/
def hash (text : List Nat) : Except Unit String :=
  Except.ok (md5_digest text)

end MD5

/-
  Spec-side definitions.  These follow the wording of the specification
  (sections 4.3 to 4.5 and 6), to be compared with the embedded code.
-/

namespace Spec

/-- Spec 4.4: the auxiliary function of round `r` (rounds numbered 0..3
here): `F`, `G`, `H`, `I`. -/
def auxiliary : Nat → (Nat → Nat → Nat → Nat)
  | 0 => MD5.f
  | 1 => MD5.g
  | 2 => MD5.h
  | _ => MD5.i

/-- Spec 4.4: the message-word index sequence `k` of round `r`, sixteen
entries per round, copied from the per-round parameter table. -/
def k_sequence : Nat → List Nat
  | 0 => List.range 16
  | 1 => [1, 6, 11, 0, 5, 10, 15, 4, 9, 14, 3, 8, 13, 2, 7, 12]
  | 2 => [5, 8, 11, 14, 1, 4, 7, 10, 13, 0, 3, 6, 9, 12, 15, 2]
  | _ => [0, 7, 14, 5, 12, 3, 10, 1, 8, 15, 6, 13, 4, 11, 2, 9]

/-- Spec 4.4: the four-entry rotation cycle `s` of round `r`. -/
def rotation_cycle : Nat → List Nat
  | 0 => [7, 12, 17, 22]
  | 1 => [5, 9, 14, 20]
  | 2 => [4, 11, 16, 23]
  | _ => [6, 10, 15, 21]

/-- Spec 4.4: the generic step operation at global index `idx` (1..64):
round `r = (idx - 1) / 16`, within-round position `m = (idx - 1) % 16`,
`k = k_sequence r  at m`, rotation `cycle[(idx - 1) % 4]`, constant-table
entry `T[idx]` (the global index, never reset per round); then
`new_b = b + rotate_left(a + func(b, c, d) + X[k] + T[idx], s)` modulo
`2 ^ 32` and the registers shift to `(d, new_b, b, c)`. -/
def step (chunks table : List Nat) (st : Nat × Nat × Nat × Nat) (idx : Nat) :
    Nat × Nat × Nat × Nat :=
  let r := (idx - 1) / 16
  let m := (idx - 1) % 16
  let k := (k_sequence r).getD m 0
  let s := (rotation_cycle r).getD ((idx - 1) % 4) 0
  let (a, b, c, d) := st
  let new_b :=
    MD5.wrapping_add b
      (MD5.rotate_left
        (MD5.wrapping_add
          (MD5.wrapping_add (MD5.wrapping_add a (auxiliary r b c d))
            (chunks.getD k 0))
          (table.getD idx 0)) s)
  (d, new_b, b, c)

/-- Spec 4.4: the whole compression pass over one block: the 64 generic
steps in order, global index 1..64. -/
def compress (a b c d : Nat) (chunks table : List Nat) : Nat × Nat × Nat × Nat :=
  (List.range 64).foldl (fun st j => step chunks table st (j + 1)) (a, b, c, d)

/-- Spec 4.5: the four bytes of a 32-bit register, least-significant byte
first. -/
def u32_le_bytes (x : Nat) : List Nat :=
  [x % 256, x / 2 ^ 8 % 256, x / 2 ^ 16 % 256, x / 2 ^ 24 % 256]

/-- Spec 4.5: the 16-byte digest: the four registers `a, b, c, d` in fixed
order, each serialized least-significant byte first. -/
def digest_bytes (text : List Nat) : List Nat :=
  let st := MD5.md5_state text
  u32_le_bytes st.1 ++ u32_le_bytes st.2.1 ++ u32_le_bytes st.2.2.1 ++
    u32_le_bytes st.2.2.2

/-- Little-endian decoding of a byte list (spec 8: "the last 8 bytes of
the padded form, decoded little-endian"). -/
def le_decode (l : List Nat) : Nat := l.foldr (fun b acc => b + 256 * acc) 0

/-- The lowercase hexadecimal digits: the decimal digit characters (codes
48..57) and the lowercase letters `a`..`f` (codes 97..102). -/
def is_lower_hex (c : Char) : Bool :=
  decide ((48 ≤ c.toNat ∧ c.toNat ≤ 57) ∨ (97 ≤ c.toNat ∧ c.toNat ≤ 102))

end Spec

/-- Models the validity invariant of Rust `str` and `String`: the byte
sequence must be well-formed UTF-8 (the Rust reference, "str").  The
`Hasher::hash` interface of `src/hashing/mod.rs` takes `text: &str`, so
only byte sequences satisfying this predicate can reach `MD5::hash`. -/
def validUtf8 : List Nat → Bool
  | [] => true
  | b0 :: rest =>
    if b0 ≤ 0x7F then
      validUtf8 rest
    else if 0xC2 ≤ b0 ∧ b0 ≤ 0xDF then
      match rest with
      | b1 :: tl =>
          decide (0x80 ≤ b1) && decide (b1 ≤ 0xBF) && validUtf8 tl
      | _ => false
    else if b0 = 0xE0 then
      match rest with
      | b1 :: b2 :: tl =>
          decide (0xA0 ≤ b1) && decide (b1 ≤ 0xBF) &&
            (decide (0x80 ≤ b2) && decide (b2 ≤ 0xBF)) && validUtf8 tl
      | _ => false
    else if (0xE1 ≤ b0 ∧ b0 ≤ 0xEC) ∨ b0 = 0xEE ∨ b0 = 0xEF then
      match rest with
      | b1 :: b2 :: tl =>
          decide (0x80 ≤ b1) && decide (b1 ≤ 0xBF) &&
            (decide (0x80 ≤ b2) && decide (b2 ≤ 0xBF)) && validUtf8 tl
      | _ => false
    else if b0 = 0xED then
      match rest with
      | b1 :: b2 :: tl =>
          decide (0x80 ≤ b1) && decide (b1 ≤ 0x9F) &&
            (decide (0x80 ≤ b2) && decide (b2 ≤ 0xBF)) && validUtf8 tl
      | _ => false
    else if b0 = 0xF0 then
      match rest with
      | b1 :: b2 :: b3 :: tl =>
          decide (0x90 ≤ b1) && decide (b1 ≤ 0xBF) &&
            (decide (0x80 ≤ b2) && decide (b2 ≤ 0xBF)) &&
            (decide (0x80 ≤ b3) && decide (b3 ≤ 0xBF)) && validUtf8 tl
      | _ => false
    else if 0xF1 ≤ b0 ∧ b0 ≤ 0xF3 then
      match rest with
      | b1 :: b2 :: b3 :: tl =>
          decide (0x80 ≤ b1) && decide (b1 ≤ 0xBF) &&
            (decide (0x80 ≤ b2) && decide (b2 ≤ 0xBF)) &&
            (decide (0x80 ≤ b3) && decide (b3 ≤ 0xBF)) && validUtf8 tl
      | _ => false
    else if b0 = 0xF4 then
      match rest with
      | b1 :: b2 :: b3 :: tl =>
          decide (0x80 ≤ b1) && decide (b1 ≤ 0x8F) &&
            (decide (0x80 ≤ b2) && decide (b2 ≤ 0xBF)) &&
            (decide (0x80 ≤ b3) && decide (b3 ≤ 0xBF)) && validUtf8 tl
      | _ => false
    else
      false

/-- Four consecutive mutation steps of the shape of the `round_op!` lines:
the common building block used to relate the unrolled rounds of the code
with the generic stepping of the specification. -/
def quad (func : Nat → Nat → Nat → Nat)
    (x0 t0 s0 x1 t1 s1 x2 t2 s2 x3 t3 s3 : Nat)
    (st : Nat × Nat × Nat × Nat) : Nat × Nat × Nat × Nat :=
  let (a, b, c, d) := st
  let a := MD5.round_op a b c d func x0 t0 s0
  let d := MD5.round_op d a b c func x1 t1 s1
  let c := MD5.round_op c d a b func x2 t2 s2
  let b := MD5.round_op b c d a func x3 t3 s3
  (a, b, c, d)

/-- The number of zero bytes the `while` loop of `pad_input` appends when
the list currently has `n` bytes. -/
def pad_zero_count (n : Nat) : Nat := (448 + 512 - n * 8 % 512) % 512 / 8

/-- Two lowercase hexadecimal characters per byte, in byte order: the
rendering of a byte list that the spec's Digest Assembler describes
("two hex characters per byte"). -/
def hex_pairs : List Nat → List Char
  | [] => []
  | b :: tl => MD5.hexChar (b / 16) :: MD5.hexChar (b % 16) :: hex_pairs tl

set_option maxRecDepth 100000

/-
  Helper lemmas relating the unrolled rounds of the code with the generic
  64-step machine of the specification (claim C8).  Each `q` lemma equates
  four consecutive generic steps with the corresponding four `round_op!`
  lines; the `seg_round` lemmas assemble them into whole rounds.
-/

theorem q1 (ct tt : List Nat) (st : Nat × Nat × Nat × Nat) :
    Spec.step ct tt (Spec.step ct tt (Spec.step ct tt (Spec.step ct tt st (0 + 1)) (1 + 1)) (2 + 1)) (3 + 1) =
      quad MD5.f (ct.getD 0 0) (tt.getD 1 0) 7 (ct.getD 1 0) (tt.getD 2 0) 12 (ct.getD 2 0) (tt.getD 3 0) 17 (ct.getD 3 0) (tt.getD 4 0) 22 st := by
  obtain ⟨a, b, c, d⟩ := st
  rfl

theorem q2 (ct tt : List Nat) (st : Nat × Nat × Nat × Nat) :
    Spec.step ct tt (Spec.step ct tt (Spec.step ct tt (Spec.step ct tt st (4 + 1)) (5 + 1)) (6 + 1)) (7 + 1) =
      quad MD5.f (ct.getD 4 0) (tt.getD 5 0) 7 (ct.getD 5 0) (tt.getD 6 0) 12 (ct.getD 6 0) (tt.getD 7 0) 17 (ct.getD 7 0) (tt.getD 8 0) 22 st := by
  obtain ⟨a, b, c, d⟩ := st
  rfl

theorem q3 (ct tt : List Nat) (st : Nat × Nat × Nat × Nat) :
    Spec.step ct tt (Spec.step ct tt (Spec.step ct tt (Spec.step ct tt st (8 + 1)) (9 + 1)) (10 + 1)) (11 + 1) =
      quad MD5.f (ct.getD 8 0) (tt.getD 9 0) 7 (ct.getD 9 0) (tt.getD 10 0) 12 (ct.getD 10 0) (tt.getD 11 0) 17 (ct.getD 11 0) (tt.getD 12 0) 22 st := by
  obtain ⟨a, b, c, d⟩ := st
  rfl

theorem q4 (ct tt : List Nat) (st : Nat × Nat × Nat × Nat) :
    Spec.step ct tt (Spec.step ct tt (Spec.step ct tt (Spec.step ct tt st (12 + 1)) (13 + 1)) (14 + 1)) (15 + 1) =
      quad MD5.f (ct.getD 12 0) (tt.getD 13 0) 7 (ct.getD 13 0) (tt.getD 14 0) 12 (ct.getD 14 0) (tt.getD 15 0) 17 (ct.getD 15 0) (tt.getD 16 0) 22 st := by
  obtain ⟨a, b, c, d⟩ := st
  rfl

theorem q5 (ct tt : List Nat) (st : Nat × Nat × Nat × Nat) :
    Spec.step ct tt (Spec.step ct tt (Spec.step ct tt (Spec.step ct tt st (16 + 1)) (17 + 1)) (18 + 1)) (19 + 1) =
      quad MD5.g (ct.getD 1 0) (tt.getD 17 0) 5 (ct.getD 6 0) (tt.getD 18 0) 9 (ct.getD 11 0) (tt.getD 19 0) 14 (ct.getD 0 0) (tt.getD 20 0) 20 st := by
  obtain ⟨a, b, c, d⟩ := st
  rfl

theorem q6 (ct tt : List Nat) (st : Nat × Nat × Nat × Nat) :
    Spec.step ct tt (Spec.step ct tt (Spec.step ct tt (Spec.step ct tt st (20 + 1)) (21 + 1)) (22 + 1)) (23 + 1) =
      quad MD5.g (ct.getD 5 0) (tt.getD 21 0) 5 (ct.getD 10 0) (tt.getD 22 0) 9 (ct.getD 15 0) (tt.getD 23 0) 14 (ct.getD 4 0) (tt.getD 24 0) 20 st := by
  obtain ⟨a, b, c, d⟩ := st
  rfl

theorem q7 (ct tt : List Nat) (st : Nat × Nat × Nat × Nat) :
    Spec.step ct tt (Spec.step ct tt (Spec.step ct tt (Spec.step ct tt st (24 + 1)) (25 + 1)) (26 + 1)) (27 + 1) =
      quad MD5.g (ct.getD 9 0) (tt.getD 25 0) 5 (ct.getD 14 0) (tt.getD 26 0) 9 (ct.getD 3 0) (tt.getD 27 0) 14 (ct.getD 8 0) (tt.getD 28 0) 20 st := by
  obtain ⟨a, b, c, d⟩ := st
  rfl

theorem q8 (ct tt : List Nat) (st : Nat × Nat × Nat × Nat) :
    Spec.step ct tt (Spec.step ct tt (Spec.step ct tt (Spec.step ct tt st (28 + 1)) (29 + 1)) (30 + 1)) (31 + 1) =
      quad MD5.g (ct.getD 13 0) (tt.getD 29 0) 5 (ct.getD 2 0) (tt.getD 30 0) 9 (ct.getD 7 0) (tt.getD 31 0) 14 (ct.getD 12 0) (tt.getD 32 0) 20 st := by
  obtain ⟨a, b, c, d⟩ := st
  rfl

theorem q9 (ct tt : List Nat) (st : Nat × Nat × Nat × Nat) :
    Spec.step ct tt (Spec.step ct tt (Spec.step ct tt (Spec.step ct tt st (32 + 1)) (33 + 1)) (34 + 1)) (35 + 1) =
      quad MD5.h (ct.getD 5 0) (tt.getD 33 0) 4 (ct.getD 8 0) (tt.getD 34 0) 11 (ct.getD 11 0) (tt.getD 35 0) 16 (ct.getD 14 0) (tt.getD 36 0) 23 st := by
  obtain ⟨a, b, c, d⟩ := st
  rfl

theorem q10 (ct tt : List Nat) (st : Nat × Nat × Nat × Nat) :
    Spec.step ct tt (Spec.step ct tt (Spec.step ct tt (Spec.step ct tt st (36 + 1)) (37 + 1)) (38 + 1)) (39 + 1) =
      quad MD5.h (ct.getD 1 0) (tt.getD 37 0) 4 (ct.getD 4 0) (tt.getD 38 0) 11 (ct.getD 7 0) (tt.getD 39 0) 16 (ct.getD 10 0) (tt.getD 40 0) 23 st := by
  obtain ⟨a, b, c, d⟩ := st
  rfl

theorem q11 (ct tt : List Nat) (st : Nat × Nat × Nat × Nat) :
    Spec.step ct tt (Spec.step ct tt (Spec.step ct tt (Spec.step ct tt st (40 + 1)) (41 + 1)) (42 + 1)) (43 + 1) =
      quad MD5.h (ct.getD 13 0) (tt.getD 41 0) 4 (ct.getD 0 0) (tt.getD 42 0) 11 (ct.getD 3 0) (tt.getD 43 0) 16 (ct.getD 6 0) (tt.getD 44 0) 23 st := by
  obtain ⟨a, b, c, d⟩ := st
  rfl

theorem q12 (ct tt : List Nat) (st : Nat × Nat × Nat × Nat) :
    Spec.step ct tt (Spec.step ct tt (Spec.step ct tt (Spec.step ct tt st (44 + 1)) (45 + 1)) (46 + 1)) (47 + 1) =
      quad MD5.h (ct.getD 9 0) (tt.getD 45 0) 4 (ct.getD 12 0) (tt.getD 46 0) 11 (ct.getD 15 0) (tt.getD 47 0) 16 (ct.getD 2 0) (tt.getD 48 0) 23 st := by
  obtain ⟨a, b, c, d⟩ := st
  rfl

theorem q13 (ct tt : List Nat) (st : Nat × Nat × Nat × Nat) :
    Spec.step ct tt (Spec.step ct tt (Spec.step ct tt (Spec.step ct tt st (48 + 1)) (49 + 1)) (50 + 1)) (51 + 1) =
      quad MD5.i (ct.getD 0 0) (tt.getD 49 0) 6 (ct.getD 7 0) (tt.getD 50 0) 10 (ct.getD 14 0) (tt.getD 51 0) 15 (ct.getD 5 0) (tt.getD 52 0) 21 st := by
  obtain ⟨a, b, c, d⟩ := st
  rfl

theorem q14 (ct tt : List Nat) (st : Nat × Nat × Nat × Nat) :
    Spec.step ct tt (Spec.step ct tt (Spec.step ct tt (Spec.step ct tt st (52 + 1)) (53 + 1)) (54 + 1)) (55 + 1) =
      quad MD5.i (ct.getD 12 0) (tt.getD 53 0) 6 (ct.getD 3 0) (tt.getD 54 0) 10 (ct.getD 10 0) (tt.getD 55 0) 15 (ct.getD 1 0) (tt.getD 56 0) 21 st := by
  obtain ⟨a, b, c, d⟩ := st
  rfl

theorem q15 (ct tt : List Nat) (st : Nat × Nat × Nat × Nat) :
    Spec.step ct tt (Spec.step ct tt (Spec.step ct tt (Spec.step ct tt st (56 + 1)) (57 + 1)) (58 + 1)) (59 + 1) =
      quad MD5.i (ct.getD 8 0) (tt.getD 57 0) 6 (ct.getD 15 0) (tt.getD 58 0) 10 (ct.getD 6 0) (tt.getD 59 0) 15 (ct.getD 13 0) (tt.getD 60 0) 21 st := by
  obtain ⟨a, b, c, d⟩ := st
  rfl

theorem q16 (ct tt : List Nat) (st : Nat × Nat × Nat × Nat) :
    Spec.step ct tt (Spec.step ct tt (Spec.step ct tt (Spec.step ct tt st (60 + 1)) (61 + 1)) (62 + 1)) (63 + 1) =
      quad MD5.i (ct.getD 4 0) (tt.getD 61 0) 6 (ct.getD 11 0) (tt.getD 62 0) 10 (ct.getD 2 0) (tt.getD 63 0) 15 (ct.getD 9 0) (tt.getD 64 0) 21 st := by
  obtain ⟨a, b, c, d⟩ := st
  rfl


theorem seg_round_1 (a b c d : Nat) (ct tt : List Nat) :
    List.foldl (fun st j => Spec.step ct tt st (j + 1)) (a, b, c, d)
      (List.range' 0 16) = MD5.round_1 a b c d ct tt := by
  simp only [List.range', Nat.reduceAdd]
  simp only [List.foldl_cons, List.foldl_nil]
  rw [q1, q2, q3, q4]
  rfl

theorem seg_round_2 (a b c d : Nat) (ct tt : List Nat) :
    List.foldl (fun st j => Spec.step ct tt st (j + 1)) (a, b, c, d)
      (List.range' 16 16) = MD5.round_2 a b c d ct tt := by
  simp only [List.range', Nat.reduceAdd]
  simp only [List.foldl_cons, List.foldl_nil]
  rw [q5, q6, q7, q8]
  rfl

theorem seg_round_3 (a b c d : Nat) (ct tt : List Nat) :
    List.foldl (fun st j => Spec.step ct tt st (j + 1)) (a, b, c, d)
      (List.range' 32 16) = MD5.round_3 a b c d ct tt := by
  simp only [List.range', Nat.reduceAdd]
  simp only [List.foldl_cons, List.foldl_nil]
  rw [q9, q10, q11, q12]
  rfl

theorem seg_round_4 (a b c d : Nat) (ct tt : List Nat) :
    List.foldl (fun st j => Spec.step ct tt st (j + 1)) (a, b, c, d)
      (List.range' 48 16) = MD5.round_4 a b c d ct tt := by
  simp only [List.range', Nat.reduceAdd]
  simp only [List.foldl_cons, List.foldl_nil]
  rw [q13, q14, q15, q16]
  rfl

/-- C8: for every block word list, table and starting state, running
`round_1`, `round_2`, `round_3`, `round_4` in sequence performs exactly
the 64 steps of the spec's generic step operation
`new_b = b + rotate_left(a + func(b, c, d) + X[k] + T[i], s)` (all
additions modulo `2 ^ 32`), with the per-round auxiliary function,
message-word index sequence `k` and rotation cycle `s` given by the spec's
round tables, the rotation amount of step `i` equal to
`cycle[(i - 1) mod 4]`, and the constant-table index advancing
monotonically 1..64 across the four rounds without resetting. -/
theorem rounds_eq_compress (a b c d : Nat) (ct tt : List Nat) :
    (let (a1, b1, c1, d1) := MD5.round_1 a b c d ct tt
     let (a2, b2, c2, d2) := MD5.round_2 a1 b1 c1 d1 ct tt
     let (a3, b3, c3, d3) := MD5.round_3 a2 b2 c2 d2 ct tt
     MD5.round_4 a3 b3 c3 d3 ct tt) = Spec.compress a b c d ct tt := by
  rcases h1 : MD5.round_1 a b c d ct tt with ⟨a1, b1, c1, d1⟩
  dsimp only
  rcases h2 : MD5.round_2 a1 b1 c1 d1 ct tt with ⟨a2, b2, c2, d2⟩
  dsimp only
  rcases h3 : MD5.round_3 a2 b2 c2 d2 ct tt with ⟨a3, b3, c3, d3⟩
  dsimp only
  unfold Spec.compress
  rw [(by decide :
    (List.range 64 : List Nat) =
      List.range' 0 16 ++ (List.range' 16 16 ++ (List.range' 32 16 ++ List.range' 48 16)))]
  rw [List.foldl_append, List.foldl_append, List.foldl_append]
  rw [seg_round_1, h1, seg_round_2, h2, seg_round_3, h3, seg_round_4]

/-
  Padding lemmas (claims C4 and C5).
-/

theorem pad_zeros_closed (fuel : Nat) :
    ∀ l : List Nat, pad_zero_count l.length < fuel →
      MD5.pad_zeros fuel l = l ++ List.replicate (pad_zero_count l.length) 0 := by
  induction fuel with
  | zero => intro l hl; exact absurd hl (by omega)
  | succ fuel ih =>
    intro l hl
    by_cases hc : l.length * 8 % 512 = 448
    · have hz : pad_zero_count l.length = 0 := by unfold pad_zero_count; omega
      simp [MD5.pad_zeros, hc, hz]
    · have hstep : pad_zero_count l.length = pad_zero_count (l.length + 1) + 1 := by
        unfold pad_zero_count; omega
      have hlen : (l ++ [0]).length = l.length + 1 := by simp
      have hfuel : pad_zero_count (l ++ [0]).length < fuel := by
        rw [hlen]; omega
      have := ih (l ++ [0]) hfuel
      rw [hlen] at this
      simp only [MD5.pad_zeros, hc, if_false, this, hstep]
      simp [List.replicate_succ, List.append_assoc]

theorem u64_to_array_u8_length (s : Nat) : (MD5.u64_to_array_u8 s).length = 8 := by
  simp [MD5.u64_to_array_u8]

theorem pad_input_closed (t : List Nat) :
    MD5.pad_input t =
      (t ++ 128 :: List.replicate (pad_zero_count (t.length + 1)) 0) ++
        MD5.u64_to_array_u8 (8 * t.length % 2 ^ 64) := by
  have hlen : (t ++ [128]).length = t.length + 1 := by simp
  show MD5.pad_zeros 64 (t ++ [128]) ++ MD5.u64_to_array_u8 (8 * t.length % 2 ^ 64) = _
  rw [pad_zeros_closed 64 (t ++ [128]) (by rw [hlen]; unfold pad_zero_count; omega)]
  rw [hlen]
  simp [List.append_assoc]

theorem pad_input_length (t : List Nat) :
    (MD5.pad_input t).length = t.length + 1 + pad_zero_count (t.length + 1) + 8 := by
  rw [pad_input_closed]
  simp [u64_to_array_u8_length, List.length_append]
  omega

/-
  Block-decoder lemmas (claim C6).
-/

theorem bytes_to_u32_chunks_length (bs : List Nat) :
    (MD5.bytes_to_u32_chunks bs).length = bs.length / 4 := by
  induction bs using MD5.bytes_to_u32_chunks.induct with
  | case1 b0 b1 b2 b3 rest ih =>
    simp only [MD5.bytes_to_u32_chunks, List.length_cons, ih]
    omega
  | case2 t hne =>
    rcases t with _ | ⟨b0, _ | ⟨b1, _ | ⟨b2, _ | ⟨b3, rest⟩⟩⟩⟩
    · decide
    · simp [MD5.bytes_to_u32_chunks]
    · simp [MD5.bytes_to_u32_chunks]
    · simp [MD5.bytes_to_u32_chunks]
    · exact absurd rfl (hne b0 b1 b2 b3 rest)

theorem getD_cons_four (l : List Nat) (a0 a1 a2 a3 : Nat) (m : Nat) :
    (a0 :: a1 :: a2 :: a3 :: l).getD (m + 4) 0 = l.getD m 0 := by
  simp [List.getD_cons_succ]

theorem bytes_to_u32_chunks_getD (bs : List Nat) (hb : ∀ b ∈ bs, b < 256) :
    ∀ j, 4 * j + 3 < bs.length →
      (MD5.bytes_to_u32_chunks bs).getD j 0 =
        bs.getD (4 * j) 0 + 2 ^ 8 * bs.getD (4 * j + 1) 0 +
          2 ^ 16 * bs.getD (4 * j + 2) 0 + 2 ^ 24 * bs.getD (4 * j + 3) 0 := by
  induction bs using MD5.bytes_to_u32_chunks.induct with
  | case1 b0 b1 b2 b3 rest ih =>
    intro j hj
    match j with
    | 0 =>
      have h0 : b0 < 256 := hb b0 (by simp)
      have h1 : b1 < 256 := hb b1 (by simp)
      have h2 : b2 < 256 := hb b2 (by simp)
      have h3 : b3 < 256 := hb b3 (by simp)
      have l0 : (MD5.bytes_to_u32_chunks (b0 :: b1 :: b2 :: b3 :: rest)).getD 0 0 =
          MD5.u32_from_ne_bytes b0 b1 b2 b3 := rfl
      have r0 : (b0 :: b1 :: b2 :: b3 :: rest).getD (4 * 0) 0 = b0 := rfl
      have r1 : (b0 :: b1 :: b2 :: b3 :: rest).getD (4 * 0 + 1) 0 = b1 := rfl
      have r2 : (b0 :: b1 :: b2 :: b3 :: rest).getD (4 * 0 + 2) 0 = b2 := rfl
      have r3 : (b0 :: b1 :: b2 :: b3 :: rest).getD (4 * 0 + 3) 0 = b3 := rfl
      rw [l0, r0, r1, r2, r3]
      unfold MD5.u32_from_ne_bytes
      omega
    | j + 1 =>
      have hbrest : ∀ b ∈ rest, b < 256 := fun b hbm => hb b (by simp [hbm])
      have hlen : 4 * j + 3 < rest.length := by
        simp only [List.length_cons] at hj; omega
      have e0 : 4 * (j + 1) = 4 * j + 4 := by ring
      have e1 : 4 * (j + 1) + 1 = 4 * j + 1 + 4 := by ring
      have e2 : 4 * (j + 1) + 2 = 4 * j + 2 + 4 := by ring
      have e3 : 4 * (j + 1) + 3 = 4 * j + 3 + 4 := by ring
      simp only [MD5.bytes_to_u32_chunks, List.getD_cons_succ, e0, e1, e2, e3,
        getD_cons_four]
      exact ih hbrest j hlen
  | case2 t hne =>
    intro j hj
    rcases t with _ | ⟨b0, _ | ⟨b1, _ | ⟨b2, _ | ⟨b3, rest⟩⟩⟩⟩
    · simp only [List.length_nil] at hj; omega
    · simp only [List.length_cons, List.length_nil] at hj; omega
    · simp only [List.length_cons, List.length_nil] at hj; omega
    · simp only [List.length_cons, List.length_nil] at hj; omega
    · exact absurd rfl (hne b0 b1 b2 b3 rest)

/-
  Digest-format lemmas (claims C2 and C10): the string built by
  `MD5::hash` is the marker `0x` followed by the byte-wise lowercase hex
  rendering of the 16 digest bytes.
-/

theorem format_hex8_bytes (A B C D : Nat)
    (hA : A < 256) (hB : B < 256) (hC : C < 256) (hD : D < 256) :
    MD5.format_hex8 (A * 2 ^ 24 + B * 2 ^ 16 + C * 2 ^ 8 + D) =
      String.mk (hex_pairs [A, B, C, D]) := by
  have d1 : (A * 2 ^ 24 + B * 2 ^ 16 + C * 2 ^ 8 + D) / 2 ^ 28 % 16 = A / 16 := by omega
  have d2 : (A * 2 ^ 24 + B * 2 ^ 16 + C * 2 ^ 8 + D) / 2 ^ 24 % 16 = A % 16 := by omega
  have d3 : (A * 2 ^ 24 + B * 2 ^ 16 + C * 2 ^ 8 + D) / 2 ^ 20 % 16 = B / 16 := by omega
  have d4 : (A * 2 ^ 24 + B * 2 ^ 16 + C * 2 ^ 8 + D) / 2 ^ 16 % 16 = B % 16 := by omega
  have d5 : (A * 2 ^ 24 + B * 2 ^ 16 + C * 2 ^ 8 + D) / 2 ^ 12 % 16 = C / 16 := by omega
  have d6 : (A * 2 ^ 24 + B * 2 ^ 16 + C * 2 ^ 8 + D) / 2 ^ 8 % 16 = C % 16 := by omega
  have d7 : (A * 2 ^ 24 + B * 2 ^ 16 + C * 2 ^ 8 + D) / 2 ^ 4 % 16 = D / 16 := by omega
  have d8 : (A * 2 ^ 24 + B * 2 ^ 16 + C * 2 ^ 8 + D) % 16 = D % 16 := by omega
  show String.mk
      [MD5.hexChar ((A * 2 ^ 24 + B * 2 ^ 16 + C * 2 ^ 8 + D) / 2 ^ 28 % 16),
       MD5.hexChar ((A * 2 ^ 24 + B * 2 ^ 16 + C * 2 ^ 8 + D) / 2 ^ 24 % 16),
       MD5.hexChar ((A * 2 ^ 24 + B * 2 ^ 16 + C * 2 ^ 8 + D) / 2 ^ 20 % 16),
       MD5.hexChar ((A * 2 ^ 24 + B * 2 ^ 16 + C * 2 ^ 8 + D) / 2 ^ 16 % 16),
       MD5.hexChar ((A * 2 ^ 24 + B * 2 ^ 16 + C * 2 ^ 8 + D) / 2 ^ 12 % 16),
       MD5.hexChar ((A * 2 ^ 24 + B * 2 ^ 16 + C * 2 ^ 8 + D) / 2 ^ 8 % 16),
       MD5.hexChar ((A * 2 ^ 24 + B * 2 ^ 16 + C * 2 ^ 8 + D) / 2 ^ 4 % 16),
       MD5.hexChar ((A * 2 ^ 24 + B * 2 ^ 16 + C * 2 ^ 8 + D) % 16)] =
    String.mk
      [MD5.hexChar (A / 16), MD5.hexChar (A % 16), MD5.hexChar (B / 16),
       MD5.hexChar (B % 16), MD5.hexChar (C / 16), MD5.hexChar (C % 16),
       MD5.hexChar (D / 16), MD5.hexChar (D % 16)]
  rw [d1, d2, d3, d4, d5, d6, d7, d8]

theorem format_hex8_swap (x : Nat) :
    MD5.format_hex8 (MD5.swap_bytes x) = String.mk (hex_pairs (Spec.u32_le_bytes x)) := by
  have e : MD5.swap_bytes x =
      x % 256 * 2 ^ 24 + x / 2 ^ 8 % 256 * 2 ^ 16 + x / 2 ^ 16 % 256 * 2 ^ 8 +
        x / 2 ^ 24 % 256 := rfl
  have eb : Spec.u32_le_bytes x =
      [x % 256, x / 2 ^ 8 % 256, x / 2 ^ 16 % 256, x / 2 ^ 24 % 256] := rfl
  rw [e, eb]
  exact format_hex8_bytes _ _ _ _
    (Nat.mod_lt _ (by omega)) (Nat.mod_lt _ (by omega))
    (Nat.mod_lt _ (by omega)) (Nat.mod_lt _ (by omega))

theorem hex_pairs_append (l1 l2 : List Nat) :
    hex_pairs (l1 ++ l2) = hex_pairs l1 ++ hex_pairs l2 := by
  induction l1 with
  | nil => rfl
  | cons b tl ih => simp [hex_pairs, ih]

theorem hex_pairs_length (l : List Nat) : (hex_pairs l).length = 2 * l.length := by
  induction l with
  | nil => rfl
  | cons b tl ih => simp [hex_pairs, ih]; omega

theorem hexChar_lower (m : Nat) (hm : m < 16) :
    Spec.is_lower_hex (MD5.hexChar m) = true := by
  interval_cases m <;> decide

theorem hex_pairs_mem (l : List Nat) (hl : ∀ b ∈ l, b < 256) :
    ∀ c ∈ hex_pairs l, Spec.is_lower_hex c = true := by
  induction l with
  | nil => intro c hc; exact absurd hc (by simp [hex_pairs])
  | cons b tl ih =>
    intro c hc
    have hb : b < 256 := hl b (by simp)
    have htl : ∀ b ∈ tl, b < 256 := fun b hbm => hl b (by simp [hbm])
    rcases hc with _ | ⟨_, hc2⟩
    · exact hexChar_lower _ (by omega)
    · rcases hc2 with _ | ⟨_, hc3⟩
      · exact hexChar_lower _ (by omega)
      · exact ih htl c hc3

theorem string_join_four (l1 l2 l3 l4 : List Char) :
    String.join [String.mk l1, String.mk l2, String.mk l3, String.mk l4] =
      String.mk ((([] ++ l1) ++ l2 ++ l3) ++ l4) := rfl

theorem digest_bytes_unfold (t : List Nat) :
    Spec.digest_bytes t =
      Spec.u32_le_bytes (MD5.md5_state t).1 ++ Spec.u32_le_bytes (MD5.md5_state t).2.1 ++
        Spec.u32_le_bytes (MD5.md5_state t).2.2.1 ++
        Spec.u32_le_bytes (MD5.md5_state t).2.2.2 := rfl

theorem md5_digest_eq (t : List Nat) :
    MD5.md5_digest t = "0x" ++ String.mk (hex_pairs (Spec.digest_bytes t)) := by
  show "0x" ++ String.join
      ([(MD5.md5_state t).1, (MD5.md5_state t).2.1, (MD5.md5_state t).2.2.1,
        (MD5.md5_state t).2.2.2].map fun x => MD5.format_hex8 (MD5.swap_bytes x)) = _
  simp only [List.map_cons, List.map_nil]
  rw [format_hex8_swap, format_hex8_swap, format_hex8_swap, format_hex8_swap,
    string_join_four, digest_bytes_unfold]
  simp [hex_pairs_append, List.append_assoc]

theorem u32_le_bytes_lt (x : Nat) : ∀ b ∈ Spec.u32_le_bytes x, b < 256 := by
  intro b hb
  simp only [Spec.u32_le_bytes, List.mem_cons, List.not_mem_nil, or_false] at hb
  rcases hb with h | h | h | h <;> omega

theorem digest_bytes_length (t : List Nat) : (Spec.digest_bytes t).length = 16 := by
  rw [digest_bytes_unfold]
  simp [Spec.u32_le_bytes]

theorem digest_bytes_lt (t : List Nat) : ∀ b ∈ Spec.digest_bytes t, b < 256 := by
  intro b hb
  rw [digest_bytes_unfold] at hb
  simp only [List.mem_append] at hb
  rcases hb with ((h | h) | h) | h <;> exact u32_le_bytes_lt _ b h

/-
  Claim theorems.
-/

/-- C1 counterexample: on the empty input, `hash` does not return the bare
digest string of the claim: the returned string carries the `0x` marker. -/
theorem md5_hash_empty_unprefixed_cex :
    MD5.hash [] ≠ Except.ok "d41d8cd98f00b204e9800998ecf8427e" := by
  intro hcon
  exact absurd (Except.ok.inj hcon) (by decide)

/-- C1 (amended): for the known test vector inputs, `hash` returns exactly
the spec's digests rendered with the `0x` marker the code always adds:
`hash("")`, `hash("a")`, `hash("abc")` and `hash` of the 80-character
string `"1234567890"` repeated 8 times yield the four reference digests,
each with the two extra leading characters `0x`. -/
theorem md5_hash_known_vectors :
    MD5.hash [] = Except.ok "0xd41d8cd98f00b204e9800998ecf8427e" ∧
    MD5.hash [97] = Except.ok "0x0cc175b9c0f1b6a831c399e269772661" ∧
    MD5.hash [97, 98, 99] = Except.ok "0x900150983cd24fb0d6963f7d28e17f72" ∧
    MD5.hash
      [49, 50, 51, 52, 53, 54, 55, 56, 57, 48, 49, 50, 51, 52, 53, 54, 55, 56, 57, 48, 49,
       50, 51, 52, 53, 54, 55, 56, 57, 48, 49, 50, 51, 52, 53, 54, 55, 56, 57, 48, 49,
       50, 51, 52, 53, 54, 55, 56, 57, 48, 49, 50, 51, 52, 53, 54, 55, 56, 57, 48, 49,
       50, 51, 52, 53, 54, 55, 56, 57, 48, 49, 50, 51, 52, 53, 54, 55, 56, 57, 48] =
      Except.ok "0x57edf4a22be3c955ac49da2e2107b67a" :=
  ⟨congrArg Except.ok (by decide), congrArg Except.ok (by decide),
   congrArg Except.ok (by decide), congrArg Except.ok (by decide)⟩

/-- C2 counterexample: the string `hash` returns on the empty input has 34
characters, not 32: the claim's "32 characters in total" fails because of
the `0x` marker. -/
theorem md5_digest_not_32_chars_cex :
    MD5.hash [] = Except.ok (MD5.md5_digest []) ∧ (MD5.md5_digest []).length ≠ 32 :=
  ⟨rfl, by decide⟩

/-- C2 (amended): for every input, the string returned by `hash` is the
two-character marker `0x` followed by a 32-character lowercase hexadecimal
representation of the 16-byte digest, two hex characters per digest
byte. -/
theorem md5_hash_hex_format (t : List Nat) :
    ∃ hex : String,
      MD5.hash t = Except.ok ("0x" ++ hex) ∧
      hex.data = hex_pairs (Spec.digest_bytes t) ∧
      (Spec.digest_bytes t).length = 16 ∧
      hex.length = 32 ∧
      ∀ c ∈ hex.data, Spec.is_lower_hex c = true := by
  refine ⟨String.mk (hex_pairs (Spec.digest_bytes t)),
    congrArg Except.ok (md5_digest_eq t), rfl, digest_bytes_length t, ?_, ?_⟩
  · rw [show (String.mk (hex_pairs (Spec.digest_bytes t))).length =
        (hex_pairs (Spec.digest_bytes t)).length from rfl,
      hex_pairs_length, digest_bytes_length]
  · exact fun c hc => hex_pairs_mem _ (digest_bytes_lt t) c hc

/-- C3 counterexample: the byte sequence `[0xFF]` is not valid UTF-8, so it
cannot be passed to `Hasher::hash`, whose interface takes `text: &str`:
the engine does not accept every byte sequence. -/
theorem hash_input_not_utf8_cex : validUtf8 [0xFF] = false := by decide

/-- C3 (amended): `hash` accepts every byte sequence that is valid UTF-8
(the domain its `&str` interface imposes), and on that domain it is total:
it always succeeds with `Ok` and a digest string, never an error. -/
theorem md5_hash_total_on_utf8 (bs : List Nat) (_h : validUtf8 bs = true) :
    ∃ out : String, MD5.hash bs = Except.ok out :=
  ⟨MD5.md5_digest bs, rfl⟩

/-- Witness for C3 at the one-byte input `"a"`. -/
theorem md5_hash_total_on_utf8_witness :
    validUtf8 [97] = true ∧ ∃ out : String, MD5.hash [97] = Except.ok out :=
  ⟨by decide, md5_hash_total_on_utf8 [97] (by decide)⟩

/-- C4: for every input the padded length is a multiple of 64 bytes, and
for an input whose bit length is already 448 mod 512 (length 56 mod 64 in
bytes) the padding still appends the `0x80` terminator, a full extra block
of 63 zero bytes, and the 8-byte length suffix, with the result length
still a multiple of 64. -/
theorem pad_input_multiple_of_64 :
    (∀ t : List Nat, (MD5.pad_input t).length % 64 = 0) ∧
    (∀ t : List Nat, t.length % 64 = 56 →
      MD5.pad_input t =
        (t ++ 128 :: List.replicate 63 0) ++
          MD5.u64_to_array_u8 (8 * t.length % 2 ^ 64) ∧
      (MD5.pad_input t).length % 64 = 0) := by
  constructor
  · intro t
    rw [pad_input_length]
    unfold pad_zero_count
    omega
  · intro t ht
    have hz : pad_zero_count (t.length + 1) = 63 := by unfold pad_zero_count; omega
    refine ⟨?_, ?_⟩
    · rw [pad_input_closed, hz]
    · rw [pad_input_length]
      unfold pad_zero_count
      omega

/-- Witness for C4 at the 56-byte all-zero input. -/
theorem pad_input_multiple_of_64_witness :
    (MD5.pad_input (List.replicate 56 0)).length % 64 = 0 ∧
    (MD5.pad_input (List.replicate 56 0) =
       (List.replicate 56 0 ++ 128 :: List.replicate 63 0) ++
         MD5.u64_to_array_u8 (8 * (List.replicate 56 (0 : Nat)).length % 2 ^ 64) ∧
     (MD5.pad_input (List.replicate 56 0)).length % 64 = 0) :=
  ⟨pad_input_multiple_of_64.1 _, pad_input_multiple_of_64.2 _ (by simp)⟩

/-- The little-endian `u64` byte array decodes back to its value. -/
theorem le_decode_u64 (s : Nat) (hs : s < 2 ^ 64) :
    Spec.le_decode (MD5.u64_to_array_u8 s) = s := by
  have e : MD5.u64_to_array_u8 s =
      [s >>> 0 % 256, s >>> 8 % 256, s >>> 16 % 256, s >>> 24 % 256,
       s >>> 32 % 256, s >>> 40 % 256, s >>> 48 % 256, s >>> 56 % 256] := rfl
  rw [e]
  simp only [Spec.le_decode, List.foldr_cons, List.foldr_nil, Nat.shiftRight_eq_div_pow]
  omega

/-- C5: for every input, the last 8 bytes of the padded form are the
little-endian bytes of `(8 * input length) mod 2 ^ 64`, and decoding them
little-endian gives exactly that value.  The bit length is computed in
wrapping `u64` arithmetic, so the computation is total: no overflow
failure is possible. -/
theorem pad_input_length_suffix (t : List Nat) :
    (MD5.pad_input t).drop ((MD5.pad_input t).length - 8) =
      MD5.u64_to_array_u8 (8 * t.length % 2 ^ 64) ∧
    Spec.le_decode ((MD5.pad_input t).drop ((MD5.pad_input t).length - 8)) =
      8 * t.length % 2 ^ 64 := by
  have hdrop : (MD5.pad_input t).drop ((MD5.pad_input t).length - 8) =
      MD5.u64_to_array_u8 (8 * t.length % 2 ^ 64) := by
    rw [pad_input_closed]
    have hl : ((t ++ 128 :: List.replicate (pad_zero_count (t.length + 1)) 0) ++
        MD5.u64_to_array_u8 (8 * t.length % 2 ^ 64)).length - 8 =
        (t ++ 128 :: List.replicate (pad_zero_count (t.length + 1)) 0).length := by
      simp [List.length_append, u64_to_array_u8_length]
      omega
    rw [hl, List.drop_left]
  refine ⟨hdrop, ?_⟩
  rw [hdrop, le_decode_u64 _ (Nat.mod_lt _ (by omega))]

/-- C6: for every 64-byte block of byte values, `bytes_to_u32_chunks`
produces exactly 16 words, and word `j` is assembled from bytes
`4j, 4j+1, 4j+2, 4j+3` in little-endian order: byte `4j` is the least
significant byte of word `j`. -/
theorem bytes_to_u32_chunks_le_words (bs : List Nat) (hlen : bs.length = 64)
    (hb : ∀ b ∈ bs, b < 256) :
    (MD5.bytes_to_u32_chunks bs).length = 16 ∧
    ∀ j < 16,
      (MD5.bytes_to_u32_chunks bs).getD j 0 =
        bs.getD (4 * j) 0 + 2 ^ 8 * bs.getD (4 * j + 1) 0 +
          2 ^ 16 * bs.getD (4 * j + 2) 0 + 2 ^ 24 * bs.getD (4 * j + 3) 0 :=
  ⟨by rw [bytes_to_u32_chunks_length, hlen],
   fun j hj => bytes_to_u32_chunks_getD bs hb j (by omega)⟩

/-- Witness for C6 at the concrete block `[0, 1, ..., 63]`. -/
theorem bytes_to_u32_chunks_le_words_witness :
    (MD5.bytes_to_u32_chunks (List.range 64)).length = 16 ∧
    ∀ j < 16,
      (MD5.bytes_to_u32_chunks (List.range 64)).getD j 0 =
        (List.range 64).getD (4 * j) 0 + 2 ^ 8 * (List.range 64).getD (4 * j + 1) 0 +
          2 ^ 16 * (List.range 64).getD (4 * j + 2) 0 +
          2 ^ 24 * (List.range 64).getD (4 * j + 3) 0 :=
  bytes_to_u32_chunks_le_words (List.range 64) (by decide) (by decide)

/-- C9: the fourth auxiliary function `i` computes `y XOR (x OR NOT z)`;
at every bit position below 32 its result bit is the XOR of the bit of `y`
with the OR of the bit of `x` and the NEGATION of the bit of `z` — the
bitwise negation of `z` is present. -/
theorem aux_i_includes_not (x y z p : Nat) (hp : p < 32) :
    (MD5.i x y z).testBit p = ((y.testBit p).xor ((x.testBit p) || !(z.testBit p))) := by
  unfold MD5.i MD5.not32
  rw [Nat.testBit_xor, Nat.testBit_lor, Nat.testBit_xor,
    show (0xFFFFFFFF : Nat) = 2 ^ 32 - 1 from by norm_num,
    Nat.testBit_two_pow_sub_one]
  rw [decide_eq_true hp]
  cases y.testBit p <;> cases x.testBit p <;> cases z.testBit p <;> rfl

/-- Witness for C9 at concrete arguments. -/
theorem aux_i_includes_not_witness :
    0 < 32 ∧
    (MD5.i 5 3 9).testBit 0 =
      (((3 : Nat).testBit 0).xor (((5 : Nat).testBit 0) || !((9 : Nat).testBit 0))) :=
  ⟨by decide, aux_i_includes_not 5 3 9 0 (by decide)⟩

/-- C10: for every input, the string returned by `hash` begins with the
two-character marker `0x` followed by exactly 32 lowercase hexadecimal
digits; its total length is always 34 and the marker is always present. -/
theorem md5_hash_has_0x_marker (t : List Nat) :
    ∃ s : String,
      MD5.hash t = Except.ok s ∧
      s.length = 34 ∧
      s.data.take 2 = ['0', 'x'] ∧
      (s.data.drop 2).length = 32 ∧
      ∀ c ∈ s.data.drop 2, Spec.is_lower_hex c = true := by
  refine ⟨"0x" ++ String.mk (hex_pairs (Spec.digest_bytes t)),
    congrArg Except.ok (md5_digest_eq t), ?_, ?_, ?_, ?_⟩
  · rw [show ("0x" ++ String.mk (hex_pairs (Spec.digest_bytes t))).length =
        ('0' :: 'x' :: hex_pairs (Spec.digest_bytes t)).length from rfl]
    simp only [List.length_cons, hex_pairs_length, digest_bytes_length]
  · rfl
  · rw [show ("0x" ++ String.mk (hex_pairs (Spec.digest_bytes t))).data.drop 2 =
        hex_pairs (Spec.digest_bytes t) from rfl,
      hex_pairs_length, digest_bytes_length]
  · intro c hc
    exact hex_pairs_mem _ (digest_bytes_lt t) c hc
